import Mathlib

/- Verification development for the Nifty options-chain extractor
   (src/chains.py, src/validation.py) against its natural-language
   specification.  The pricing core module `greeks_calculator` is not part of
   the repository snapshot; its functions are modelled from the specification,
   as marked in their doc comments.  Orchestration code present in the
   repository (chains.py, validation.py) is embedded directly from the
   source. -/

open MeasureTheory

namespace NiftyChain

/-- Option kind: CE is a call, PE is a put (the `instrument_type` field in
chains.py). -/
inductive OptKind
  | CE
  | PE
deriving DecidableEq, Repr

/-- Modelled from the spec: the standard normal density φ used by the
GreeksEngine of `greeks_calculator` (spec §4.3). -/
noncomputable def normalPdf (x : ℝ) : ℝ :=
  Real.exp (-(x ^ 2) / 2) / Real.sqrt (2 * Real.pi)

/-- Modelled from the spec: the standard normal cumulative distribution Φ used
by the AnalyticPricer of `greeks_calculator` (spec §4.2). -/
noncomputable def normalCdf (x : ℝ) : ℝ :=
  (∫ t in Set.Iic x, Real.exp (-(t ^ 2) / 2)) / Real.sqrt (2 * Real.pi)

/-- Modelled from the spec (§4.2): the d1 term of Black–Scholes–Merton. -/
noncomputable def bsD1 (S K T sigma r : ℝ) : ℝ :=
  (Real.log (S / K) + (r + sigma ^ 2 / 2) * T) / (sigma * Real.sqrt T)

/-- Modelled from the spec (§4.2): the d2 term of Black–Scholes–Merton. -/
noncomputable def bsD2 (S K T sigma r : ℝ) : ℝ :=
  bsD1 S K T sigma r - sigma * Real.sqrt T

/-- Modelled from the spec (§4.2): the Black–Scholes–Merton price of a
European option with zero dividend yield. -/
noncomputable def bs_price (S K T sigma r : ℝ) : OptKind → ℝ
  | OptKind.CE =>
      S * normalCdf (bsD1 S K T sigma r)
        - K * Real.exp (-r * T) * normalCdf (bsD2 S K T sigma r)
  | OptKind.PE =>
      K * Real.exp (-r * T) * normalCdf (-bsD2 S K T sigma r)
        - S * normalCdf (-bsD1 S K T sigma r)

/-- Modelled from the spec (§4.3): Vega, identical for calls and puts. -/
noncomputable def bs_vega (S K T sigma r : ℝ) : ℝ :=
  S * normalPdf (bsD1 S K T sigma r) * Real.sqrt T

/-- GreeksResult of the spec data model (§3). -/
structure GreeksResult where
  delta : ℝ
  gamma : ℝ
  vega : ℝ
  theta : ℝ

/-- Modelled from the spec (§9, and the banner printed by validation.py):
the module-level default risk-free rate of `greeks_calculator`, the previous
default in this codebase (6.5%). -/
noncomputable def RISK_FREE_RATE : ℝ := 0.065

/-- Modelled from the spec (§4.3): the GreeksEngine at an explicit risk-free
rate. -/
noncomputable def bsGreeks (S K T sigma r : ℝ) (kind : OptKind) : GreeksResult :=
  let d1 := bsD1 S K T sigma r
  let d2 := bsD2 S K T sigma r
  { delta :=
      match kind with
      | OptKind.CE => normalCdf d1
      | OptKind.PE => normalCdf d1 - 1
    gamma := normalPdf d1 / (S * sigma * Real.sqrt T)
    vega := S * normalPdf d1 * Real.sqrt T
    theta :=
      match kind with
      | OptKind.CE =>
          (-(S * normalPdf d1 * sigma) / (2 * Real.sqrt T)
            - r * K * Real.exp (-r * T) * normalCdf d2) / 365
      | OptKind.PE =>
          (-(S * normalPdf d1 * sigma) / (2 * Real.sqrt T)
            + r * K * Real.exp (-r * T) * normalCdf (-d2)) / 365 }

/-- Modelled from the spec (§4.3, §6): `greeks_calculator.calculate_all_greeks`.
In Python `risk_free_rate` is an optional keyword argument whose default is the
module-level rate; a call that omits the argument passes `none` here. -/
noncomputable def calculate_all_greeks (S K T sigma : ℝ) (kind : OptKind)
    (rate : Option ℝ) : GreeksResult :=
  bsGreeks S K T sigma (rate.getD RISK_FREE_RATE) kind

/-- VolatilityEstimate of the spec data model (§3). -/
structure VolatilityEstimate where
  value : ℝ
  converged : Bool
  iterations : ℕ

/-- Modelled from the spec (§4.4 step 3): the solver's price tolerance. -/
noncomputable def PRICE_TOL : ℝ := 1e-5

/-- Modelled from the spec (§4.4 step 4): the near-zero Vega floor. -/
noncomputable def VEGA_FLOOR : ℝ := 1e-8

/-- Modelled from the spec (§4.4 step 4): lower end of the volatility bracket. -/
noncomputable def VOL_LO : ℝ := 0.001

/-- Modelled from the spec (§4.4 step 4): upper end of the volatility bracket. -/
noncomputable def VOL_HI : ℝ := 5

/-- Modelled from the spec (§4.4 step 2): the fixed Newton–Raphson seed. -/
noncomputable def IV_SEED : ℝ := 0.2

/-- Modelled from the spec (§4.4 step 3): the bounded iteration count. -/
def IV_MAX_ITER : ℕ := 100

/-- Modelled from the spec (§4.1): the positive floor of the year fraction,
1/(365*24*60), representing minutes. -/
noncomputable def TIME_FLOOR : ℝ := 1 / (365 * 24 * 60)

/-- Modelled from the spec (§4.4 step 4): the bisection fallback on the fixed
bracket, bounded by fuel; on exhaustion it reports the midpoint with
`converged = false`. -/
noncomputable def bisectIV (market S K T r : ℝ) (kind : OptKind) :
    ℕ → ℝ → ℝ → ℕ → VolatilityEstimate
  | 0, lo, hi, iters => ⟨(lo + hi) / 2, false, iters⟩
  | fuel + 1, lo, hi, iters =>
    let mid := (lo + hi) / 2
    let p := bs_price S K T mid r kind
    if |p - market| < PRICE_TOL then ⟨mid, true, iters⟩
    else if p < market then bisectIV market S K T r kind fuel mid hi (iters + 1)
    else bisectIV market S K T r kind fuel lo mid (iters + 1)

/-- Modelled from the spec (§4.4 steps 3–5): the Newton–Raphson iteration with
the residual stopping test, the guarded switch to bisection when Vega is near
zero (including the bracket edge policy), and the clamped Newton update. -/
noncomputable def newtonIV (market S K T r : ℝ) (kind : OptKind) :
    ℕ → ℝ → ℕ → VolatilityEstimate
  | 0, sigma, iters => ⟨sigma, false, iters⟩
  | fuel + 1, sigma, iters =>
    let residual := bs_price S K T sigma r kind - market
    if |residual| < PRICE_TOL then ⟨sigma, true, iters⟩
    else
      let v := bs_vega S K T sigma r
      if |v| < VEGA_FLOOR then
        if bs_price S K T VOL_LO r kind > market then ⟨VOL_LO, false, iters⟩
        else if bs_price S K T VOL_HI r kind < market then ⟨VOL_HI, false, iters⟩
        else bisectIV market S K T r kind IV_MAX_ITER VOL_LO VOL_HI iters
      else
        newtonIV market S K T r kind fuel
          (min (max (sigma - residual / v) VOL_LO) VOL_HI) (iters + 1)

/-- Modelled from the spec (§4.4): the implied-volatility solver `solve`.  The
edge precondition (step 1: non-positive market price, or time at its floor) is
reported as a flagged estimate, never an exception (§4.4 tie-break policy,
§8). -/
noncomputable def solveIV (market S K T r : ℝ) (kind : OptKind) : VolatilityEstimate :=
  if market ≤ 0 ∨ T ≤ TIME_FLOOR then ⟨0, false, 0⟩
  else newtonIV market S K T r kind IV_MAX_ITER IV_SEED 0

/-- Modelled from the spec (§4.4, §6) and the call sites in chains.py:
`greeks_calculator.calculate_implied_volatility` returns the estimate's value
as a plain number; `risk_free_rate` is an optional keyword argument (a call
that omits it passes `none` here). -/
noncomputable def calculate_implied_volatility (market S K T : ℝ) (kind : OptKind)
    (rate : Option ℝ) : ℝ :=
  (solveIV market S K T (rate.getD RISK_FREE_RATE) kind).value

/-- A calendar date, the value of the `expiry` field of a Kite instrument and
of Python's datetime.date. -/
structure Date where
  year : ℤ
  month : ℤ
  day : ℤ
deriving DecidableEq, Repr

/-- Python comparison of datetime.date values: lexicographic on
(year, month, day); this is `a <= b`. -/
def Date.ble (a b : Date) : Bool :=
  if a.year ≠ b.year then decide (a.year < b.year)
  else if a.month ≠ b.month then decide (a.month < b.month)
  else decide (a.day ≤ b.day)

/-- Python comparison of datetime.date values: strict `a < b`. -/
def Date.blt (a b : Date) : Bool :=
  if a.year ≠ b.year then decide (a.year < b.year)
  else if a.month ≠ b.month then decide (a.month < b.month)
  else decide (a.day < b.day)

/-- Day number of a Gregorian date (days since 1970-01-01); embeds Python's
datetime.date subtraction, which yields a day count. -/
def Date.toDays (d : Date) : ℤ :=
  let y := if d.month ≤ 2 then d.year - 1 else d.year
  let era := y.fdiv 400
  let yoe := y - era * 400
  let mp := (d.month + 9).emod 12
  let doy := (153 * mp + 2).fdiv 5 + d.day - 1
  let doe := yoe * 365 + yoe.fdiv 4 - yoe.fdiv 100 + doy
  era * 146097 + doe - 719468

/-- Modelled from the spec (§4.1): the positive floor of TimeBasis as an exact
rational, 1/(365*24*60). -/
def TIME_FLOOR_Q : ℚ := 1 / (365 * 24 * 60)

/-- Modelled from the spec (§4.1): `greeks_calculator.get_time_to_expiry`, the
TimeBasis.  The day difference between the expiry and the reference instant is
divided by 365 (Actual/365) and a non-positive result is clamped to the
positive floor.  chains.py lets the reference default to the current time;
validation.py passes it explicitly. -/
def get_time_to_expiry (expiry reference : Date) : ℚ :=
  let t : ℚ := ((expiry.toDays - reference.toDays : ℤ) : ℚ) / 365
  if t ≤ 0 then TIME_FLOOR_Q else t

/-- A Kite NFO option instrument, with the fields chains.py reads. -/
structure Inst where
  tradingsymbol : String
  strike : ℚ
  instrument_type : OptKind
  expiry : Date
deriving DecidableEq, Repr

/-- One level of the market depth of a quote. -/
structure DepthLevel where
  quantity : ℚ
  price : ℚ
deriving DecidableEq, Repr

/-- Market depth of a quote. -/
structure Depth where
  buy : List DepthLevel
  sell : List DepthLevel
deriving DecidableEq, Repr

/-- A market quote, with the fields chains.py reads; Python's
`quote.get(field, 0)` defaults make every field total with default 0. -/
structure Quote where
  oi : ℚ
  oi_day_high : ℚ
  oi_day_low : ℚ
  volume : ℚ
  last_price : ℚ
  change : ℚ
  depth : Depth
deriving DecidableEq, Repr

def emptyDepthLevel : DepthLevel := ⟨0, 0⟩

def emptyQuote : Quote := ⟨0, 0, 0, 0, 0, 0, ⟨[], []⟩⟩

/-- Python's `quotes.get(key, {})`: a keyed lookup defaulting to the empty
quote (whose field reads all default to 0). -/
def lookupQuote (quotes : List (String × Quote)) (k : String) : Quote :=
  (quotes.lookup k).getD emptyQuote

/-- The CE_* (or PE_*) block of one row of the options chain; the CE and PE
blocks of the source carry the same fields. -/
structure OptFields where
  oi : ℚ
  change_in_oi : ℚ
  volume : ℚ
  ltp : ℚ
  change : ℚ
  iv : ℝ
  bid_qty : ℚ
  bid_price : ℚ
  ask_price : ℚ
  ask_qty : ℚ
  delta : ℝ
  gamma : ℝ
  vega : ℝ
  theta : ℝ

/-- The zero filler row block written when the instrument for one side of a
strike is missing (chains.py lines 458-464 and 514-520). -/
def zeroOptFields : OptFields := ⟨0, 0, 0, 0, 0, 0, 0, 0, 0, 0, 0, 0, 0, 0⟩

/-- Python's round-half-to-even of a real number to an integer. -/
noncomputable def roundHalfEvenR (y : ℝ) : ℤ :=
  if Int.fract y = 1 / 2 then (if Even ⌊y⌋ then ⌊y⌋ else ⌊y⌋ + 1) else round y

/-- Python's `round(x, 2)`: round half to even at two decimal places. -/
noncomputable def pyRound2R (x : ℝ) : ℝ := ((roundHalfEvenR (x * 100) : ℤ) : ℝ) / 100

/-- One option side of a row built by build_options_chain (chains.py lines
410-464 for CE, 466-520 for PE; the two blocks are identical up to the option
kind and field prefix).  The implied-volatility branch is lines 421-434 (CE)
and 477-490 (PE); the Greeks call is lines 446-457 (CE) and 502-513 (PE); both
calls omit the risk_free_rate keyword argument. -/
noncomputable def optFieldsFor (quotes : List (String × Quote))
    (spot strike time_to_expiry : ℚ) (kind : OptKind) (inst : Option Inst) :
    OptFields :=
  match inst with
  | none => zeroOptFields
  | some inst =>
    let q := lookupQuote quotes ("NFO:" ++ inst.tradingsymbol)
    let ltp := q.last_price
    let pair : ℝ × ℝ :=
      if 0 < ltp ∧ 0 < time_to_expiry then
        let iv := calculate_implied_volatility (ltp : ℝ) (spot : ℝ) (strike : ℝ)
          ((time_to_expiry : ℚ) : ℝ) kind none
        (iv, pyRound2R (iv * 100))
      else (0.15, 0)
    let buy := q.depth.buy.headD emptyDepthLevel
    let sell := q.depth.sell.headD emptyDepthLevel
    let g := calculate_all_greeks (spot : ℝ) (strike : ℝ) ((time_to_expiry : ℚ) : ℝ)
      pair.1 kind none
    { oi := q.oi
      change_in_oi := q.oi_day_high - q.oi_day_low
      volume := q.volume
      ltp := ltp
      change := q.change
      iv := pair.2
      bid_qty := buy.quantity
      bid_price := buy.price
      ask_price := sell.price
      ask_qty := sell.quantity
      delta := g.delta
      gamma := g.gamma
      vega := g.vega
      theta := g.theta }

/-- One row of the options chain dataframe. -/
structure Row where
  timestamp : Date
  underlying_spot : ℚ
  futures_price : ℚ
  strike_price : ℚ
  expiry_date : Option Date
  ce : OptFields
  pe : OptFields

/-- The loop body of build_options_chain for one strike (chains.py lines
389-522): locate the CE and PE instruments of the strike and assemble the row
from the metadata fields and the two option sides. -/
noncomputable def chainRow (instruments : List Inst) (quotes : List (String × Quote))
    (spot_price : ℚ) (time_to_expiry : ℚ) (now : Date) (futures_price : Option ℚ)
    (strike : ℚ) : Row :=
  let ce_inst := instruments.find? fun i =>
    decide (i.strike = strike ∧ i.instrument_type = OptKind.CE)
  let pe_inst := instruments.find? fun i =>
    decide (i.strike = strike ∧ i.instrument_type = OptKind.PE)
  { timestamp := now
    underlying_spot := spot_price
    futures_price :=
      match futures_price with
      | some p => if p ≠ 0 then p else 0
      | none => 0
    strike_price := strike
    expiry_date :=
      match ce_inst with
      | some c => some c.expiry
      | none =>
        match pe_inst with
        | some p => some p.expiry
        | none => none
    ce := optFieldsFor quotes spot_price strike time_to_expiry OptKind.CE ce_inst
    pe := optFieldsFor quotes spot_price strike time_to_expiry OptKind.PE pe_inst }

/-- build_options_chain (chains.py lines 378-524).  The capture timestamp and
the reference instant of the time basis are both datetime.now(), the `now`
parameter here; quotes are the keyed quote map. -/
noncomputable def build_options_chain (instruments : List Inst)
    (quotes : List (String × Quote)) (strikes : List ℚ) (spot_price : ℚ)
    (expiry_date : Date) (now : Date) (futures_price : Option ℚ) : List Row :=
  strikes.map
    (chainRow instruments quotes spot_price (get_time_to_expiry expiry_date now) now
      futures_price)

/-- filter_options_by_expiry_and_strikes (chains.py lines 345-353). -/
def filter_options_by_expiry_and_strikes (instruments : List Inst) (expiry : Date)
    (strikes : List ℚ) : List Inst :=
  instruments.filter fun i => decide (i.expiry = expiry ∧ i.strike ∈ strikes)

/-- Python's round on an exact rational: round half to even. -/
def pyRound (x : ℚ) : ℤ :=
  if x - ⌊x⌋ < 1 / 2 then ⌊x⌋
  else if 1 / 2 < x - ⌊x⌋ then ⌊x⌋ + 1
  else if Even ⌊x⌋ then ⌊x⌋ else ⌊x⌋ + 1

/-- get_atm_strike (chains.py lines 190-192). -/
def get_atm_strike (spot_price : ℚ) (strike_gap : ℚ) : ℚ :=
  (pyRound (spot_price / strike_gap) : ℚ) * strike_gap

/-- Python's range(a, b) on integers. -/
def intRange (a b : ℤ) : List ℤ :=
  (List.range (b - a).toNat).map fun j : ℕ => a + (j : ℤ)

/-- get_strike_range (chains.py lines 194-199). -/
def get_strike_range (atm_strike : ℚ) (num_strikes : ℤ) (strike_gap : ℚ) : List ℚ :=
  (intRange (-num_strikes) (num_strikes + 1)).map fun i : ℤ =>
    atm_strike + (i : ℚ) * strike_gap

/-- The weekly/monthly classification returned by identify_expiries. -/
structure Expiries where
  weekly : List Date
  monthly : List Date
deriving DecidableEq, Repr

/-- Python: datetime.date values have no `date` attribute (only
datetime.datetime does), so hasattr(expiry, \x27date\x27) is False for them. -/
def dateHasDateAttr : Bool := false

/-- Python truthiness of a datetime.date object: always True. -/
def dateTruthy (_d : Date) : Bool := true

/-- Python's sorted on a list of dates. -/
def sortDates (l : List Date) : List Date :=
  List.insertionSort (fun a b => Date.ble a b = true) l

/-- Calculation of next_month and next_year in identify_expiries (chains.py
lines 245-246), as a (year, month) pair. -/
def nextYearMonth (today : Date) : ℤ × ℤ :=
  (if today.month < 12 then today.year else today.year + 1, today.month.emod 12 + 1)

/-- The months_to_fetch selection of identify_expiries (chains.py lines
259-292).  Line 274 is parsed by Python as a conditional expression: when
hasattr(cme, \x27date\x27) holds the branch condition is the comparison with
cme.date(), otherwise it is the truthiness of the date object cme itself.
Line 279 compares today with the same conditional expression, which for a
plain date value is the date itself. -/
def monthsToFetch (expiry_dates : List Date) (today : Date) : List (ℤ × ℤ) :=
  let current_month_expiries := expiry_dates.filter fun e =>
    decide (e.month = today.month ∧ e.year = today.year)
  match current_month_expiries.getLast? with
  | some cme =>
    if (if dateHasDateAttr then Date.blt today cme else dateTruthy cme) then
      [(today.year, today.month)]
    else if decide (today = cme) then
      [(today.year, today.month), nextYearMonth today]
    else [nextYearMonth today]
  | none => [nextYearMonth today]

/-- The per-month weekly/monthly split of identify_expiries (chains.py lines
311-329): within each month the last expiry is monthly and the rest are
weekly; a month with a single expiry is classified monthly. -/
def groupStep (target_expiries : List Date) (acc : List Date × List Date)
    (k : ℤ × ℤ) : List Date × List Date :=
  let month_expiries := sortDates (target_expiries.filter fun e =>
    decide ((e.year, e.month) = k))
  if 1 < month_expiries.length then
    (acc.1 ++ month_expiries.dropLast, acc.2 ++ month_expiries.getLast?.toList)
  else
    (acc.1, acc.2 ++ month_expiries.head?.toList)

/-- identify_expiries (chains.py lines 223-343). -/
def identify_expiries (instruments : List Inst) (today : Date) : Expiries :=
  let expiry_dates := sortDates (instruments.map fun i => i.expiry).dedup
  if expiry_dates.isEmpty then ⟨[], []⟩ else
  let future_expiries := expiry_dates.filter fun e => Date.ble today e
  if future_expiries.isEmpty then ⟨[], []⟩ else
  let target_expiries := future_expiries.filter fun e =>
    decide ((e.year, e.month) ∈ monthsToFetch expiry_dates today)
  if target_expiries.isEmpty then ⟨[], []⟩ else
  let month_keys := (target_expiries.map fun e => (e.year, e.month)).dedup
  let pair := month_keys.foldl (groupStep target_expiries)
    (([] : List Date), ([] : List Date))
  ⟨sortDates pair.1, sortDates pair.2⟩

/-- Whether an expiry is processed by the weekly or the monthly loop of run. -/
inductive ExpiryKind
  | weekly
  | monthly
deriving DecidableEq, Repr

/-- One entry of created_files in run (chains.py lines 629-634). -/
structure CreatedFile where
  kind : ExpiryKind
  expiry : Date
  path : String
  strikes : ℕ

/-- The counters and created-file list accumulated by run's loops. -/
structure RunTotals where
  files : List CreatedFile
  success : ℕ
  errors : ℕ

/-- The body of one try-block of run's per-expiry loops (chains.py lines
614-639 and 652-677): filter the options, fetch quotes, build the chain,
export to CSV.  The network fetch and the CSV export are I/O collaborators
that may raise and are passed as fallible functions. -/
noncomputable def expiryStep (all_options : List Inst) (strikes : List ℚ)
    (spot_price : ℚ) (now : Date) (futures_price : Option ℚ)
    (fetch : List Inst → Except String (List (String × Quote)))
    (exportCsv : List Row → Date → ExpiryKind → Except String String)
    (expiry : Date) (kind : ExpiryKind) : Except String CreatedFile := do
  let options := filter_options_by_expiry_and_strikes all_options expiry strikes
  let quotes ← fetch options
  let df := build_options_chain options quotes strikes spot_price expiry now futures_price
  let path ← exportCsv df expiry kind
  pure ⟨kind, expiry, path, df.length⟩

/-- One iteration of a processing loop of run: the expiry is attempted; a
successful step appends its created file and counts a success (chains.py lines
628-635), a raised exception is caught (lines 641-643 and 679-681), counted as
an error, and the loop continues with the next expiry. -/
def runFoldStep (step : Date → ExpiryKind → Except String CreatedFile)
    (k : ExpiryKind) (acc : RunTotals) (e : Date) : RunTotals :=
  match step e k with
  | Except.ok file => ⟨acc.files ++ [file], acc.success + 1, acc.errors⟩
  | Except.error _ => ⟨acc.files, acc.success, acc.errors + 1⟩

/-- The weekly loop (chains.py lines 607-643) followed by the monthly loop
(lines 645-681) of run, starting from empty created_files and zero
counters. -/
def processExpiries (step : Date → ExpiryKind → Except String CreatedFile)
    (weekly monthly : List Date) : RunTotals :=
  monthly.foldl (runFoldStep step ExpiryKind.monthly)
    (weekly.foldl (runFoldStep step ExpiryKind.weekly) ⟨[], 0, 0⟩)

/-- calculate_greeks_with_rate (validation.py lines 20-35): Greeks with an
explicitly passed risk-free rate. -/
noncomputable def calculate_greeks_with_rate (spot strike time_to_expiry market_iv : ℝ)
    (option_type : OptKind) (risk_free_rate : ℝ) : GreeksResult :=
  calculate_all_greeks spot strike time_to_expiry market_iv option_type
    (some risk_free_rate)

/-- The four comparison rates of generate_validation_report (validation.py
lines 120-125). -/
noncomputable def rates_to_compare : List (String × ℝ) :=
  [("NSE (10%)", 0.10), ("Custom (6.5%)", 0.065), ("RBI T-Bill (5.43%)", 0.0543),
    ("Conservative (5%)", 0.05)]

/-- One row of the percentage-difference tables of
generate_validation_report. -/
structure GreeksDiffs where
  delta : ℝ
  gamma : ℝ
  vega : ℝ
  theta : ℝ

/-- Percentage differences of one Greeks result relative to the NSE 10%
reference for the call table (validation.py lines 194-197). -/
noncomputable def ceDiffRow (greeks nse : GreeksResult) : GreeksDiffs :=
  { delta := if nse.delta ≠ 0 then (greeks.delta - nse.delta) / nse.delta * 100 else 0
    gamma := if nse.gamma ≠ 0 then (greeks.gamma - nse.gamma) / nse.gamma * 100 else 0
    vega := if nse.vega ≠ 0 then (greeks.vega - nse.vega) / nse.vega * 100 else 0
    theta := if nse.theta ≠ 0 then (greeks.theta - nse.theta) / nse.theta * 100 else 0 }

/-- Percentage differences of one Greeks result relative to the NSE 10%
reference for the put table (validation.py lines 211-214); delta and theta
divide by the absolute reference value. -/
noncomputable def peDiffRow (greeks nse : GreeksResult) : GreeksDiffs :=
  { delta := if nse.delta ≠ 0 then (greeks.delta - nse.delta) / |nse.delta| * 100 else 0
    gamma := if nse.gamma ≠ 0 then (greeks.gamma - nse.gamma) / nse.gamma * 100 else 0
    vega := if nse.vega ≠ 0 then (greeks.vega - nse.vega) / nse.vega * 100 else 0
    theta := if nse.theta ≠ 0 then (greeks.theta - nse.theta) / |nse.theta| * 100 else 0 }

/- ------------------------------------------------------------------ -/
/- Theorems.                                                           -/
/- ------------------------------------------------------------------ -/

lemma sqrt_two_pi_pos : 0 < Real.sqrt (2 * Real.pi) :=
  Real.sqrt_pos.mpr (by positivity)

lemma integrable_gauss : Integrable (fun t : ℝ => Real.exp (-(t ^ 2) / 2)) := by
  have h := integrable_exp_neg_mul_sq (b := (1 / 2 : ℝ)) (by norm_num)
  refine h.congr ?_
  filter_upwards with t
  ring_nf

lemma gauss_total : (∫ t : ℝ, Real.exp (-(t ^ 2) / 2)) = Real.sqrt (2 * Real.pi) := by
  have h : (∫ t : ℝ, Real.exp (-(t ^ 2) / 2)) = ∫ t : ℝ, Real.exp (-(1 / 2 : ℝ) * t ^ 2) := by
    congr 1
    funext t
    ring_nf
  rw [h, integral_gaussian, show Real.pi / (1 / 2 : ℝ) = 2 * Real.pi by ring]

lemma normalCdf_nonneg (x : ℝ) : 0 ≤ normalCdf x := by
  unfold normalCdf
  apply div_nonneg _ (Real.sqrt_nonneg _)
  exact setIntegral_nonneg measurableSet_Iic fun t _ => (Real.exp_pos _).le

lemma normalCdf_le_one (x : ℝ) : normalCdf x ≤ 1 := by
  unfold normalCdf
  rw [div_le_one sqrt_two_pi_pos]
  calc (∫ t in Set.Iic x, Real.exp (-(t ^ 2) / 2))
      ≤ ∫ t : ℝ, Real.exp (-(t ^ 2) / 2) :=
        setIntegral_le_integral integrable_gauss
          (Filter.Eventually.of_forall fun t => (Real.exp_pos _).le)
    _ = Real.sqrt (2 * Real.pi) := gauss_total

lemma normalCdf_strictMono : StrictMono normalCdf := by
  intro a b hab
  unfold normalCdf
  have key : (∫ t in Set.Iic a, Real.exp (-(t ^ 2) / 2))
      < ∫ t in Set.Iic b, Real.exp (-(t ^ 2) / 2) := by
    have hsub := intervalIntegral.integral_Iic_sub_Iic (a := a) (b := b)
      integrable_gauss.integrableOn integrable_gauss.integrableOn
    have hpos : 0 < ∫ t in a..b, Real.exp (-(t ^ 2) / 2) :=
      intervalIntegral.intervalIntegral_pos_of_pos integrable_gauss.intervalIntegrable
        (fun t => Real.exp_pos _) hab
    linarith
  exact div_lt_div_of_pos_right key sqrt_two_pi_pos

lemma normalCdf_pos (x : ℝ) : 0 < normalCdf x :=
  lt_of_le_of_lt (normalCdf_nonneg (x - 1)) (normalCdf_strictMono (by linarith))

lemma normalPdf_pos (x : ℝ) : 0 < normalPdf x :=
  div_pos (Real.exp_pos _) sqrt_two_pi_pos

lemma normalPdf_le_one (x : ℝ) : normalPdf x ≤ 1 := by
  unfold normalPdf
  rw [div_le_one sqrt_two_pi_pos]
  calc Real.exp (-(x ^ 2) / 2) ≤ 1 := by
        rw [show (1 : ℝ) = Real.exp 0 by simp]
        exact Real.exp_le_exp.mpr (by nlinarith [sq_nonneg x])
    _ ≤ Real.sqrt (2 * Real.pi) := by
        rw [show (1 : ℝ) = Real.sqrt 1 by simp]
        exact Real.sqrt_le_sqrt (by nlinarith [Real.pi_gt_three])

lemma pyRound_close (x : ℚ) : |(pyRound x : ℚ) - x| ≤ 1 / 2 := by
  have h0 : (⌊x⌋ : ℚ) ≤ x := Int.floor_le x
  have h1 : x < ⌊x⌋ + 1 := Int.lt_floor_add_one x
  unfold pyRound
  split_ifs with hlt hgt he
  · rw [abs_le]; constructor <;> linarith
  · push_cast; rw [abs_le]; constructor <;> push_cast at hlt hgt ⊢ <;> linarith
  · rw [abs_le]; constructor <;> push_cast at hlt hgt ⊢ <;> linarith
  · push_cast; rw [abs_le]; constructor <;> push_cast at hlt hgt ⊢ <;> linarith

/-- C6: for every positive spot price and positive strike gap, get_atm_strike
returns an integer multiple of the strike gap whose distance from the spot
price is at most half a gap, i.e. a strike closest to the spot. -/
theorem get_atm_strike_closest (spot_price strike_gap : ℚ)
    (_hs : 0 < spot_price) (hg : 0 < strike_gap) :
    (∃ n : ℤ, get_atm_strike spot_price strike_gap = n * strike_gap) ∧
      |get_atm_strike spot_price strike_gap - spot_price| ≤ strike_gap / 2 := by
  refine ⟨⟨pyRound (spot_price / strike_gap), rfl⟩, ?_⟩
  have hx := pyRound_close (spot_price / strike_gap)
  have hkey : get_atm_strike spot_price strike_gap - spot_price
      = ((pyRound (spot_price / strike_gap) : ℚ) - spot_price / strike_gap) * strike_gap := by
    rw [get_atm_strike, sub_mul, div_mul_cancel₀ _ hg.ne']
  rw [hkey, abs_mul, abs_of_pos hg]
  calc |(pyRound (spot_price / strike_gap) : ℚ) - spot_price / strike_gap| * strike_gap
      ≤ (1 / 2) * strike_gap := mul_le_mul_of_nonneg_right hx hg.le
    _ = strike_gap / 2 := by ring

/-- Witness for C6 at spot 19483 with gap 50. -/
theorem get_atm_strike_closest_witness :
    (∃ n : ℤ, get_atm_strike 19483 50 = n * 50) ∧
      |get_atm_strike 19483 50 - 19483| ≤ 50 / 2 :=
  get_atm_strike_closest 19483 50 (by norm_num) (by norm_num)

/-- C9: for every atm strike, every non-negative strike count n and every
positive gap, get_strike_range returns exactly 2n+1 strikes, indexed by
atm + (i - n) * gap, consecutive strikes strictly increasing and spaced by
exactly one gap, with first element atm - n * gap, middle element atm, and
last element atm + n * gap. -/
theorem get_strike_range_spec (atm_strike strike_gap : ℚ) (n : ℤ)
    (hn : 0 ≤ n) (hg : 0 < strike_gap) :
    (get_strike_range atm_strike n strike_gap).length = 2 * n.toNat + 1 ∧
    (∀ i (h : i < (get_strike_range atm_strike n strike_gap).length),
      (get_strike_range atm_strike n strike_gap).get ⟨i, h⟩
        = atm_strike + (((i : ℤ) - n : ℤ) : ℚ) * strike_gap) ∧
    (∀ i (h : i + 1 < (get_strike_range atm_strike n strike_gap).length),
      (get_strike_range atm_strike n strike_gap).get ⟨i, by omega⟩
          < (get_strike_range atm_strike n strike_gap).get ⟨i + 1, h⟩ ∧
      (get_strike_range atm_strike n strike_gap).get ⟨i + 1, h⟩
          - (get_strike_range atm_strike n strike_gap).get ⟨i, by omega⟩ = strike_gap) ∧
    (get_strike_range atm_strike n strike_gap)[0]?
        = some (atm_strike - (n : ℚ) * strike_gap) ∧
    (get_strike_range atm_strike n strike_gap)[n.toNat]? = some atm_strike ∧
    (get_strike_range atm_strike n strike_gap)[2 * n.toNat]?
        = some (atm_strike + (n : ℚ) * strike_gap) := by
  have hlen : (get_strike_range atm_strike n strike_gap).length = 2 * n.toNat + 1 := by
    simp only [get_strike_range, intRange, List.length_map, List.length_range]
    omega
  have hget : ∀ i (h : i < (get_strike_range atm_strike n strike_gap).length),
      (get_strike_range atm_strike n strike_gap)[i]
        = atm_strike + (((i : ℤ) - n : ℤ) : ℚ) * strike_gap := by
    intro i h
    simp only [get_strike_range, intRange, List.getElem_map, List.getElem_range]
    push_cast
    ring
  have hget' : ∀ i (h : i < (get_strike_range atm_strike n strike_gap).length),
      (get_strike_range atm_strike n strike_gap).get ⟨i, h⟩
        = atm_strike + (((i : ℤ) - n : ℤ) : ℚ) * strike_gap := by
    intro i h
    rw [List.get_eq_getElem]
    exact hget i h
  refine ⟨hlen, hget', ?_, ?_, ?_, ?_⟩
  · intro i h
    rw [hget' i (by omega), hget' (i + 1) h]
    have hd : (((i + 1 : ℕ) : ℤ) - n : ℤ) = (((i : ℤ) - n : ℤ)) + 1 := by push_cast; ring
    rw [hd]
    push_cast
    constructor
    · nlinarith
    · ring
  · rw [List.getElem?_eq_getElem (by omega), hget 0 (by omega)]
    push_cast
    ring_nf
  · rw [List.getElem?_eq_getElem (by omega), hget n.toNat (by omega)]
    rw [show (((n.toNat : ℤ) - n : ℤ) : ℚ) = 0 by rw [Int.toNat_of_nonneg hn]; push_cast; ring]
    ring_nf
  · rw [List.getElem?_eq_getElem (by omega), hget (2 * n.toNat) (by omega)]
    rw [show ((((2 * n.toNat : ℕ) : ℤ) - n : ℤ) : ℚ) = (n : ℚ) by
      rw [show ((2 * n.toNat : ℕ) : ℤ) = 2 * n by omega]; push_cast; ring]

/-- Witness for C9 at atm 19500, n = 2, gap 50. -/
theorem get_strike_range_spec_witness :
    (get_strike_range 19500 2 50).length = 2 * (2 : ℤ).toNat + 1 ∧
      (get_strike_range 19500 2 50)[0]? = some (19500 - (2 : ℚ) * 50) :=
  ⟨(get_strike_range_spec 19500 50 2 (by norm_num) (by norm_num)).1,
   (get_strike_range_spec 19500 50 2 (by norm_num) (by norm_num)).2.2.2.1⟩

/-- C10: in generate_validation_report every percentage-difference division is
guarded: whenever the NSE 10% reference Greek is zero the reported difference
is 0 instead of a division by zero, in both the call and the put tables. -/
theorem validation_diffs_guarded (g nse : GreeksResult) :
    (nse.delta = 0 → (ceDiffRow g nse).delta = 0 ∧ (peDiffRow g nse).delta = 0) ∧
    (nse.gamma = 0 → (ceDiffRow g nse).gamma = 0 ∧ (peDiffRow g nse).gamma = 0) ∧
    (nse.vega = 0 → (ceDiffRow g nse).vega = 0 ∧ (peDiffRow g nse).vega = 0) ∧
    (nse.theta = 0 → (ceDiffRow g nse).theta = 0 ∧ (peDiffRow g nse).theta = 0) := by
  refine ⟨fun h => ?_, fun h => ?_, fun h => ?_, fun h => ?_⟩ <;>
    simp [ceDiffRow, peDiffRow, h]

/-- Witness for C10 at a zero reference result. -/
theorem validation_diffs_guarded_witness :
    (ceDiffRow ⟨1, 2, 3, 4⟩ ⟨0, 0, 0, 0⟩).delta = 0 ∧
      (peDiffRow ⟨1, 2, 3, 4⟩ ⟨0, 0, 0, 0⟩).theta = 0 :=
  ⟨((validation_diffs_guarded ⟨1, 2, 3, 4⟩ ⟨0, 0, 0, 0⟩).1 rfl).1,
   ((validation_diffs_guarded ⟨1, 2, 3, 4⟩ ⟨0, 0, 0, 0⟩).2.2.2 rfl).2⟩

lemma runFold_characterization (step : Date → ExpiryKind → Except String CreatedFile)
    (k : ExpiryKind) (l : List Date) :
    ∀ acc : RunTotals,
      l.foldl (runFoldStep step k) acc =
        ⟨acc.files ++ l.filterMap (fun e => (step e k).toOption),
         acc.success + l.countP (fun e => ((step e k).toOption).isSome),
         acc.errors + l.countP (fun e => ((step e k).toOption).isNone)⟩ := by
  induction l with
  | nil => intro acc; simp
  | cons e l ih =>
    intro acc
    rw [List.foldl_cons, ih]
    cases h : step e k with
    | ok file =>
      simp [runFoldStep, h, List.filterMap_cons, List.countP_cons, Except.toOption,
        RunTotals.mk.injEq]
      omega
    | error msg =>
      simp [runFoldStep, h, List.filterMap_cons, List.countP_cons, Except.toOption,
        RunTotals.mk.injEq]
      omega

lemma countP_isSome_add_isNone (f : Date → Option CreatedFile) (l : List Date) :
    l.countP (fun e => (f e).isSome) + l.countP (fun e => (f e).isNone) = l.length := by
  induction l with
  | nil => simp
  | cons e l ih =>
    simp only [List.countP_cons]
    cases f e <;> simp <;> omega

/-- C5: the processing loops of run attempt every expiry regardless of
failures: the success and error counters always account for every weekly and
monthly expiry, the error counter counts exactly the failing steps, and the
created files are exactly the successful steps in order, so a single failure
never aborts the batch. -/
theorem run_processes_all_expiries (step : Date → ExpiryKind → Except String CreatedFile)
    (weekly monthly : List Date) :
    (processExpiries step weekly monthly).success + (processExpiries step weekly monthly).errors
        = weekly.length + monthly.length ∧
    (processExpiries step weekly monthly).errors
        = weekly.countP (fun e => ((step e ExpiryKind.weekly).toOption).isNone)
          + monthly.countP (fun e => ((step e ExpiryKind.monthly).toOption).isNone) ∧
    (processExpiries step weekly monthly).files
        = weekly.filterMap (fun e => (step e ExpiryKind.weekly).toOption)
          ++ monthly.filterMap (fun e => (step e ExpiryKind.monthly).toOption) := by
  unfold processExpiries
  rw [runFold_characterization, runFold_characterization]
  have hw := countP_isSome_add_isNone (fun e => (step e ExpiryKind.weekly).toOption) weekly
  have hm := countP_isSome_add_isNone (fun e => (step e ExpiryKind.monthly).toOption) monthly
  refine ⟨by simp; omega, by simp, by simp⟩

lemma mem_sortDates {e : Date} {l : List Date} : e ∈ sortDates l ↔ e ∈ l :=
  (List.perm_insertionSort _ l).mem_iff

lemma Date.blt_ble_false {a b : Date} (h1 : Date.blt a b = true)
    (h2 : Date.ble b a = true) : False := by
  unfold Date.blt at h1
  unfold Date.ble at h2
  split_ifs at h1 h2 <;> simp_all <;> omega

lemma groupFold_subset (target : List Date) (keys : List (ℤ × ℤ)) :
    ∀ (acc : List Date × List Date) (x : Date),
      (x ∈ (keys.foldl (groupStep target) acc).1 ∨
        x ∈ (keys.foldl (groupStep target) acc).2) →
      x ∈ acc.1 ∨ x ∈ acc.2 ∨ x ∈ target := by
  induction keys with
  | nil =>
    intro acc x hx
    simpa using hx.elim Or.inl (fun h => Or.inr (Or.inl h))
  | cons k keys ih =>
    intro acc x hx
    rw [List.foldl_cons] at hx
    have hsub : ∀ y : Date,
        y ∈ sortDates (target.filter fun e => decide ((e.year, e.month) = k)) →
        y ∈ target := by
      intro y hy
      exact (List.mem_filter.mp (mem_sortDates.mp hy)).1
    rcases ih (groupStep target acc k) x hx with h | h | h
    · simp only [groupStep] at h
      split_ifs at h with hlen
      · rcases List.mem_append.mp h with h1 | h1
        · exact Or.inl h1
        · exact Or.inr (Or.inr (hsub x (List.dropLast_subset _ h1)))
      · exact Or.inl h
    · simp only [groupStep] at h
      split_ifs at h with hlen
      · rcases List.mem_append.mp h with h1 | h1
        · exact Or.inr (Or.inl h1)
        · refine Or.inr (Or.inr (hsub x (List.mem_of_getLast?_eq_some ?_)))
          exact Option.mem_def.mp (Option.mem_toList.mp h1)
      · rcases List.mem_append.mp h with h1 | h1
        · exact Or.inr (Or.inl h1)
        · refine Or.inr (Or.inr (hsub x (List.mem_of_mem_head? ?_)))
          exact Option.mem_toList.mp h1
    · exact Or.inr (Or.inr h)

lemma mem_identify_expiries {instruments : List Inst} {today : Date} {e : Date}
    (he : e ∈ (identify_expiries instruments today).weekly ∨
          e ∈ (identify_expiries instruments today).monthly) :
    e ∈ instruments.map (fun i => i.expiry) ∧ Date.ble today e = true ∧
      (e.year, e.month) ∈
        monthsToFetch (sortDates (instruments.map fun i => i.expiry).dedup) today := by
  simp only [identify_expiries] at he
  split_ifs at he with h1 h2 h3
  · simp [Expiries.weekly, Expiries.monthly] at he
  · simp [Expiries.weekly, Expiries.monthly] at he
  · simp [Expiries.weekly, Expiries.monthly] at he
  · simp only [Expiries.weekly, Expiries.monthly] at he
    have hmem : e ∈ ((sortDates (instruments.map fun i => i.expiry).dedup).filter
        (fun d => Date.ble today d)).filter
        (fun d => decide ((d.year, d.month) ∈
          monthsToFetch (sortDates (instruments.map fun i => i.expiry).dedup) today)) := by
      rcases he with h | h
      · rcases groupFold_subset _ _ _ e (Or.inl (mem_sortDates.mp h)) with h' | h' | h'
        · simp at h'
        · simp at h'
        · exact h'
      · rcases groupFold_subset _ _ _ e (Or.inr (mem_sortDates.mp h)) with h' | h' | h'
        · simp at h'
        · simp at h'
        · exact h'
    have h5 := List.mem_filter.mp hmem
    have h6 := List.mem_filter.mp h5.1
    refine ⟨List.mem_dedup.mp (mem_sortDates.mp h6.1), h6.2, by simpa using h5.2⟩

/-- C7: when the instrument list contains no expiry in the current calendar
month, identify_expiries silently defaults to the next month: the target
months are exactly the next (year, month) pair and every returned weekly or
monthly expiry lies in that month. -/
theorem identify_expiries_defaults_next_month (instruments : List Inst) (today : Date)
    (h : ∀ i ∈ instruments, ¬(i.expiry.month = today.month ∧ i.expiry.year = today.year)) :
    monthsToFetch (sortDates (instruments.map fun i => i.expiry).dedup) today
        = [nextYearMonth today] ∧
    ∀ e, (e ∈ (identify_expiries instruments today).weekly ∨
          e ∈ (identify_expiries instruments today).monthly) →
      (e.year, e.month) = nextYearMonth today := by
  have hcur : (sortDates (instruments.map fun i => i.expiry).dedup).filter
      (fun e => decide (e.month = today.month ∧ e.year = today.year)) = [] := by
    rw [List.filter_eq_nil_iff]
    intro a ha
    obtain ⟨i, hi, rfl⟩ := List.mem_map.mp (List.mem_dedup.mp (mem_sortDates.mp ha))
    simpa using h i hi
  have hm : monthsToFetch (sortDates (instruments.map fun i => i.expiry).dedup) today
      = [nextYearMonth today] := by
    unfold monthsToFetch
    rw [hcur]
    rfl
  refine ⟨hm, fun e he => ?_⟩
  have h3 := (mem_identify_expiries he).2.2
  rw [hm] at h3
  simpa using h3

/-- Witness for C7: a single November expiry seen from an October day. -/
theorem identify_expiries_defaults_next_month_witness :
    monthsToFetch (sortDates (([⟨"A", 100, OptKind.CE, ⟨2025, 11, 27⟩⟩] :
        List Inst).map fun i => i.expiry).dedup) ⟨2025, 10, 12⟩
      = [nextYearMonth ⟨2025, 10, 12⟩] :=
  (identify_expiries_defaults_next_month _ _ (by decide)).1

/-- C8: with plain calendar-date expiries (no date attribute), when at least
one current-month expiry exists the month-selection conditional of
identify_expiries always takes the before-monthly-expiry branch (the hasattr
test is False and a date object is truthy), so the target months are exactly
the current month and every returned expiry lies in it; consequently, on a day
strictly after the last current-month expiry the function returns empty weekly
and monthly lists. -/
theorem identify_expiries_truthiness_branch (instruments : List Inst) (today : Date)
    (h1 : ∃ i ∈ instruments, i.expiry.month = today.month ∧ i.expiry.year = today.year) :
    monthsToFetch (sortDates (instruments.map fun i => i.expiry).dedup) today
        = [(today.year, today.month)] ∧
    (∀ e, (e ∈ (identify_expiries instruments today).weekly ∨
           e ∈ (identify_expiries instruments today).monthly) →
       e.year = today.year ∧ e.month = today.month) ∧
    ((∀ i ∈ instruments, (i.expiry.month = today.month ∧ i.expiry.year = today.year) →
        Date.blt i.expiry today = true) →
      identify_expiries instruments today = ⟨[], []⟩) := by
  obtain ⟨i0, hi0, hmonth⟩ := h1
  have hcur : i0.expiry ∈ (sortDates (instruments.map fun i => i.expiry).dedup).filter
      (fun e => decide (e.month = today.month ∧ e.year = today.year)) := by
    refine List.mem_filter.mpr ⟨?_, by simpa using hmonth⟩
    exact mem_sortDates.mpr (List.mem_dedup.mpr (List.mem_map.mpr ⟨i0, hi0, rfl⟩))
  have hne : (sortDates (instruments.map fun i => i.expiry).dedup).filter
      (fun e => decide (e.month = today.month ∧ e.year = today.year)) ≠ [] :=
    List.ne_nil_of_mem hcur
  have hm : monthsToFetch (sortDates (instruments.map fun i => i.expiry).dedup) today
      = [(today.year, today.month)] := by
    simp only [monthsToFetch]
    rw [List.getLast?_eq_getLast _ hne]
    simp [dateHasDateAttr, dateTruthy]
  refine ⟨hm, fun e he => ?_, fun h2 => ?_⟩
  · have h3 := (mem_identify_expiries he).2.2
    rw [hm, List.mem_singleton, Prod.ext_iff] at h3
    exact ⟨h3.1, h3.2⟩
  · have htgt : ((sortDates (instruments.map fun i => i.expiry).dedup).filter
        (fun d => Date.ble today d)).filter
        (fun d => decide ((d.year, d.month) ∈
          monthsToFetch (sortDates (instruments.map fun i => i.expiry).dedup) today)) = [] := by
      rw [List.filter_eq_nil_iff]
      intro a ha
      have h5 := List.mem_filter.mp ha
      obtain ⟨i, hi, rfl⟩ := List.mem_map.mp (List.mem_dedup.mp (mem_sortDates.mp h5.1))
      rw [hm]
      simp only [List.mem_singleton, decide_eq_true_eq]
      intro hpair
      rw [Prod.ext_iff] at hpair
      exact Date.blt_ble_false (h2 i hi ⟨hpair.2, hpair.1⟩) h5.2
    simp only [identify_expiries]
    split_ifs with ha hb hc
    · rfl
    · rfl
    · rfl
    · exact absurd (by simpa [List.isEmpty_iff] using htgt) hc

/-- Witness for C8: one current-month expiry already in the past. -/
theorem identify_expiries_truthiness_branch_witness :
    identify_expiries [⟨"A", 100, OptKind.CE, ⟨2025, 10, 7⟩⟩] ⟨2025, 10, 12⟩ = ⟨[], []⟩ :=
  (identify_expiries_truthiness_branch _ _ (by decide)).2.2 (by decide)

lemma get_time_to_expiry_pos (e n : Date) : 0 < get_time_to_expiry e n := by
  unfold get_time_to_expiry TIME_FLOOR_Q
  dsimp only
  split_ifs with h
  · norm_num
  · linarith [not_le.mp h]

lemma get_time_to_expiry_self (d : Date) : get_time_to_expiry d d = TIME_FLOOR_Q := by
  unfold get_time_to_expiry
  simp

lemma exp_neg_le_one {x : ℝ} (hx : 0 ≤ x) : Real.exp (-x) ≤ 1 := by
  rw [show (1 : ℝ) = Real.exp 0 by simp]
  exact Real.exp_le_exp.mpr (by linarith)

lemma bs_price_CE (S K T sigma r : ℝ) :
    bs_price S K T sigma r OptKind.CE
      = S * normalCdf (bsD1 S K T sigma r)
        - K * Real.exp (-r * T) * normalCdf (bsD2 S K T sigma r) := rfl

lemma bs_price_PE (S K T sigma r : ℝ) :
    bs_price S K T sigma r OptKind.PE
      = K * Real.exp (-r * T) * normalCdf (-bsD2 S K T sigma r)
        - S * normalCdf (-bsD1 S K T sigma r) := rfl

lemma bs_price_call_bounds (S K T sigma r : ℝ) (hS : 0 ≤ S) (hK : 0 ≤ K)
    (hT : 0 ≤ T) (hr : 0 ≤ r) :
    -K ≤ bs_price S K T sigma r OptKind.CE ∧ bs_price S K T sigma r OptKind.CE ≤ S := by
  rw [bs_price_CE]
  have h1 := normalCdf_nonneg (bsD1 S K T sigma r)
  have h2 := normalCdf_le_one (bsD1 S K T sigma r)
  have h3 := normalCdf_nonneg (bsD2 S K T sigma r)
  have h4 := normalCdf_le_one (bsD2 S K T sigma r)
  have h5 := (Real.exp_pos (-r * T)).le
  have h6 : Real.exp (-r * T) ≤ 1 := by
    rw [show -r * T = -(r * T) by ring]
    exact exp_neg_le_one (by positivity)
  have hA : 0 ≤ S * normalCdf (bsD1 S K T sigma r) := mul_nonneg hS h1
  have hB : K * Real.exp (-r * T) * normalCdf (bsD2 S K T sigma r) ≤ K :=
    le_trans (mul_le_of_le_one_right (mul_nonneg hK h5) h4)
      (mul_le_of_le_one_right hK h6)
  have hC : S * normalCdf (bsD1 S K T sigma r) ≤ S := mul_le_of_le_one_right hS h2
  have hD : 0 ≤ K * Real.exp (-r * T) * normalCdf (bsD2 S K T sigma r) :=
    mul_nonneg (mul_nonneg hK h5) h3
  constructor
  · linarith
  · linarith

lemma bs_price_call_pos_atm (S T sigma r : ℝ) (hS : 0 < S) (hT : 0 < T)
    (hsig : 0 < sigma) (hr : 0 < r) :
    0 < bs_price S S T sigma r OptKind.CE := by
  rw [bs_price_CE]
  have hd : bsD2 S S T sigma r < bsD1 S S T sigma r := by
    unfold bsD2
    have hst : 0 < sigma * Real.sqrt T := by positivity
    linarith
  have hmono := normalCdf_strictMono hd
  have h2pos := normalCdf_pos (bsD2 S S T sigma r)
  have hexp : Real.exp (-r * T) < 1 := by
    rw [show (1 : ℝ) = Real.exp 0 by simp]
    exact Real.exp_lt_exp.mpr (by nlinarith)
  have k1 : Real.exp (-r * T) * normalCdf (bsD2 S S T sigma r)
      < normalCdf (bsD2 S S T sigma r) := by nlinarith
  have k2 : Real.exp (-r * T) * normalCdf (bsD2 S S T sigma r)
      < normalCdf (bsD1 S S T sigma r) := lt_trans k1 hmono
  nlinarith [mul_pos hS (sub_pos.mpr k2)]

lemma newtonIV_zero (market S K T r : ℝ) (kind : OptKind) (sigma : ℝ) (iters : ℕ) :
    newtonIV market S K T r kind 0 sigma iters = ⟨sigma, false, iters⟩ := rfl

lemma newtonIV_succ (market S K T r : ℝ) (kind : OptKind) (fuel : ℕ) (sigma : ℝ)
    (iters : ℕ) :
    newtonIV market S K T r kind (fuel + 1) sigma iters =
      if |bs_price S K T sigma r kind - market| < PRICE_TOL then ⟨sigma, true, iters⟩
      else if |bs_vega S K T sigma r| < VEGA_FLOOR then
        if bs_price S K T VOL_LO r kind > market then ⟨VOL_LO, false, iters⟩
        else if bs_price S K T VOL_HI r kind < market then ⟨VOL_HI, false, iters⟩
        else bisectIV market S K T r kind IV_MAX_ITER VOL_LO VOL_HI iters
      else
        newtonIV market S K T r kind fuel
          (min (max (sigma - (bs_price S K T sigma r kind - market) / bs_vega S K T sigma r)
            VOL_LO) VOL_HI) (iters + 1) := rfl

lemma bisectIV_zero (market S K T r : ℝ) (kind : OptKind) (lo hi : ℝ) (iters : ℕ) :
    bisectIV market S K T r kind 0 lo hi iters = ⟨(lo + hi) / 2, false, iters⟩ := rfl

lemma bisectIV_succ (market S K T r : ℝ) (kind : OptKind) (fuel : ℕ) (lo hi : ℝ)
    (iters : ℕ) :
    bisectIV market S K T r kind (fuel + 1) lo hi iters =
      if |bs_price S K T ((lo + hi) / 2) r kind - market| < PRICE_TOL then
        ⟨(lo + hi) / 2, true, iters⟩
      else if bs_price S K T ((lo + hi) / 2) r kind < market then
        bisectIV market S K T r kind fuel ((lo + hi) / 2) hi (iters + 1)
      else bisectIV market S K T r kind fuel lo ((lo + hi) / 2) (iters + 1) := rfl

lemma bisectIV_converged_price (market S K T r : ℝ) (kind : OptKind) (fuel : ℕ) :
    ∀ (lo hi : ℝ) (iters : ℕ),
      (bisectIV market S K T r kind fuel lo hi iters).converged = true →
      |bs_price S K T (bisectIV market S K T r kind fuel lo hi iters).value r kind
        - market| < PRICE_TOL := by
  induction fuel with
  | zero =>
    intro lo hi iters h
    rw [bisectIV_zero] at h
    simp at h
  | succ n ih =>
    intro lo hi iters h
    rw [bisectIV_succ] at h ⊢
    split_ifs at h ⊢ with h1 h2
    · exact h1
    · exact ih _ _ _ h
    · exact ih _ _ _ h

lemma newtonIV_converged_price (market S K T r : ℝ) (kind : OptKind) (fuel : ℕ) :
    ∀ (sigma : ℝ) (iters : ℕ),
      (newtonIV market S K T r kind fuel sigma iters).converged = true →
      |bs_price S K T (newtonIV market S K T r kind fuel sigma iters).value r kind
        - market| < PRICE_TOL := by
  induction fuel with
  | zero =>
    intro sigma iters h
    rw [newtonIV_zero] at h
    simp at h
  | succ n ih =>
    intro sigma iters h
    rw [newtonIV_succ] at h ⊢
    split_ifs at h ⊢ with h1 h2 h3 h4
    · exact h1
    · exact bisectIV_converged_price market S K T r kind IV_MAX_ITER _ _ _ h
    · exact ih _ _ h

/-- C2 amended: whenever the implied-volatility solver reports convergence,
the model price at the returned volatility matches the market price within the
solver price tolerance 1e-5.  Recovering the generating volatility itself
within 1e-4 is not guaranteed: on price-insensitive inputs the solver can stop
at the seed far from the generating volatility. -/
theorem solveIV_converged_price_close (market S K T r : ℝ) (kind : OptKind)
    (h : (solveIV market S K T r kind).converged = true) :
    |bs_price S K T (solveIV market S K T r kind).value r kind - market|
      < PRICE_TOL := by
  unfold solveIV at h ⊢
  split_ifs at h ⊢ with hpre
  exact newtonIV_converged_price market S K T r kind IV_MAX_ITER _ _ h

lemma solveIV_degenerate_eq :
    solveIV (bs_price (1 / 1000000000) (1 / 1000000000) (7 / 365) 3 (1 / 20) OptKind.CE)
        (1 / 1000000000) (1 / 1000000000) (7 / 365) (1 / 20) OptKind.CE
      = ⟨IV_SEED, true, 0⟩ := by
  have hmkt : 0 < bs_price (1 / 1000000000) (1 / 1000000000) (7 / 365) 3 (1 / 20)
      OptKind.CE :=
    bs_price_call_pos_atm _ _ _ _ (by norm_num) (by norm_num) (by norm_num) (by norm_num)
  have hb1 := bs_price_call_bounds (1 / 1000000000) (1 / 1000000000) (7 / 365) IV_SEED
    (1 / 20) (by norm_num) (by norm_num) (by norm_num) (by norm_num)
  have hb2 := bs_price_call_bounds (1 / 1000000000) (1 / 1000000000) (7 / 365) 3
    (1 / 20) (by norm_num) (by norm_num) (by norm_num) (by norm_num)
  have hres : |bs_price (1 / 1000000000) (1 / 1000000000) (7 / 365) IV_SEED (1 / 20)
        OptKind.CE
      - bs_price (1 / 1000000000) (1 / 1000000000) (7 / 365) 3 (1 / 20) OptKind.CE|
      < PRICE_TOL := by
    unfold PRICE_TOL
    rw [abs_lt]
    constructor
    · nlinarith [hb1.1, hb2.2]
    · nlinarith [hb1.2, hb2.1]
  have hpre : ¬(bs_price (1 / 1000000000) (1 / 1000000000) (7 / 365) 3 (1 / 20)
        OptKind.CE ≤ 0 ∨ (7 / 365 : ℝ) ≤ TIME_FLOOR) := by
    push_neg
    refine ⟨hmkt, ?_⟩
    unfold TIME_FLOOR
    norm_num
  unfold solveIV
  rw [if_neg hpre, show IV_MAX_ITER = 99 + 1 from rfl, newtonIV_succ, if_pos hres]

/-- C2 counterexample: valid inputs spot = strike = 1e-9, T = 7/365, r = 5%
with generating volatility 3 (inside [0.01, 3.0]).  The option price is
insensitive to volatility there, so the first Newton residual test already
passes at the seed: the solver reports converged = true with value 0.2, which
is not within 1e-4 of 3. -/
theorem iv_roundtrip_cex :
    (solveIV (bs_price (1 / 1000000000) (1 / 1000000000) (7 / 365) 3 (1 / 20) OptKind.CE)
        (1 / 1000000000) (1 / 1000000000) (7 / 365) (1 / 20) OptKind.CE).converged
      = true ∧
    ¬(|(solveIV (bs_price (1 / 1000000000) (1 / 1000000000) (7 / 365) 3 (1 / 20)
          OptKind.CE)
        (1 / 1000000000) (1 / 1000000000) (7 / 365) (1 / 20) OptKind.CE).value - 3|
        ≤ 1e-4) := by
  rw [solveIV_degenerate_eq]
  refine ⟨rfl, ?_⟩
  unfold IV_SEED
  rw [abs_le]
  norm_num

/-- Witness for the amended C2 at the degenerate input, where convergence is
provable. -/
theorem solveIV_converged_price_close_witness :
    |bs_price (1 / 1000000000) (1 / 1000000000) (7 / 365)
        (solveIV (bs_price (1 / 1000000000) (1 / 1000000000) (7 / 365) 3 (1 / 20)
            OptKind.CE)
          (1 / 1000000000) (1 / 1000000000) (7 / 365) (1 / 20) OptKind.CE).value
        (1 / 20) OptKind.CE
      - bs_price (1 / 1000000000) (1 / 1000000000) (7 / 365) 3 (1 / 20) OptKind.CE|
      < PRICE_TOL :=
  solveIV_converged_price_close _ _ _ _ _ _ (by rw [solveIV_degenerate_eq])

lemma calculate_implied_volatility_edge (market S K T : ℝ) (kind : OptKind)
    (rate : Option ℝ) (h : market ≤ 0 ∨ T ≤ TIME_FLOOR) :
    calculate_implied_volatility market S K T kind rate = 0 := by
  unfold calculate_implied_volatility solveIV
  rw [if_pos h]

lemma pyRound2R_zero : pyRound2R 0 = 0 := by
  unfold pyRound2R roundHalfEvenR
  norm_num

lemma optFieldsFor_fallback (quotes : List (String × Quote)) (spot strike T : ℚ)
    (kind : OptKind) (inst : Inst)
    (h : ¬(0 < (lookupQuote quotes ("NFO:" ++ inst.tradingsymbol)).last_price ∧ 0 < T)) :
    (optFieldsFor quotes spot strike T kind (some inst)).iv = 0 ∧
    (⟨(optFieldsFor quotes spot strike T kind (some inst)).delta,
      (optFieldsFor quotes spot strike T kind (some inst)).gamma,
      (optFieldsFor quotes spot strike T kind (some inst)).vega,
      (optFieldsFor quotes spot strike T kind (some inst)).theta⟩ : GreeksResult)
      = calculate_all_greeks (spot : ℝ) (strike : ℝ) ((T : ℚ) : ℝ) 0.15 kind none := by
  simp only [optFieldsFor]
  rw [if_neg h]
  exact ⟨rfl, rfl⟩

lemma optFieldsFor_solver (quotes : List (String × Quote)) (spot strike T : ℚ)
    (kind : OptKind) (inst : Inst)
    (h : 0 < (lookupQuote quotes ("NFO:" ++ inst.tradingsymbol)).last_price ∧ 0 < T) :
    (optFieldsFor quotes spot strike T kind (some inst)).iv
      = pyRound2R (calculate_implied_volatility
          (((lookupQuote quotes ("NFO:" ++ inst.tradingsymbol)).last_price : ℚ) : ℝ)
          (spot : ℝ) (strike : ℝ) ((T : ℚ) : ℝ) kind none * 100) ∧
    (⟨(optFieldsFor quotes spot strike T kind (some inst)).delta,
      (optFieldsFor quotes spot strike T kind (some inst)).gamma,
      (optFieldsFor quotes spot strike T kind (some inst)).vega,
      (optFieldsFor quotes spot strike T kind (some inst)).theta⟩ : GreeksResult)
      = calculate_all_greeks (spot : ℝ) (strike : ℝ) ((T : ℚ) : ℝ)
          (calculate_implied_volatility
            (((lookupQuote quotes ("NFO:" ++ inst.tradingsymbol)).last_price : ℚ) : ℝ)
            (spot : ℝ) (strike : ℝ) ((T : ℚ) : ℝ) kind none) kind none := by
  simp only [optFieldsFor]
  rw [if_pos h]
  exact ⟨rfl, rfl⟩

lemma optFieldsFor_none (quotes : List (String × Quote)) (spot strike T : ℚ)
    (kind : OptKind) :
    optFieldsFor quotes spot strike T kind none = zeroOptFields := rfl

lemma chainRow_ce (instruments : List Inst) (quotes : List (String × Quote))
    (spot T : ℚ) (now : Date) (fp : Option ℚ) (strike : ℚ) :
    (chainRow instruments quotes spot T now fp strike).ce
      = optFieldsFor quotes spot strike T OptKind.CE
          (instruments.find? fun i =>
            decide (i.strike = strike ∧ i.instrument_type = OptKind.CE)) := rfl

lemma chainRow_pe (instruments : List Inst) (quotes : List (String × Quote))
    (spot T : ℚ) (now : Date) (fp : Option ℚ) (strike : ℚ) :
    (chainRow instruments quotes spot T now fp strike).pe
      = optFieldsFor quotes spot strike T OptKind.PE
          (instruments.find? fun i =>
            decide (i.strike = strike ∧ i.instrument_type = OptKind.PE)) := rfl

lemma build_options_chain_get (instruments : List Inst) (quotes : List (String × Quote))
    (strikes : List ℚ) (spot : ℚ) (expiry now : Date) (fp : Option ℚ)
    (i : ℕ) (h : i < strikes.length) :
    (build_options_chain instruments quotes strikes spot expiry now fp).get
        ⟨i, by simpa [build_options_chain] using h⟩
      = chainRow instruments quotes spot (get_time_to_expiry expiry now) now fp
          (strikes.get ⟨i, h⟩) := by
  simp [build_options_chain, List.get_eq_getElem, List.getElem_map]

/-- C3: build_options_chain returns exactly one row per requested strike, in
the order of the strikes list; a strike whose call or put instrument is
missing yields a row whose corresponding option fields are all zero rather
than being dropped, so the row count always equals the number of requested
strikes. -/
theorem build_chain_row_per_strike (instruments : List Inst)
    (quotes : List (String × Quote)) (strikes : List ℚ) (spot : ℚ)
    (expiry now : Date) (fp : Option ℚ) :
    (build_options_chain instruments quotes strikes spot expiry now fp).length
        = strikes.length ∧
    (∀ i (h : i < strikes.length),
      ((build_options_chain instruments quotes strikes spot expiry now fp).get
          ⟨i, by simpa [build_options_chain] using h⟩).strike_price
        = strikes.get ⟨i, h⟩) ∧
    (∀ i (h : i < strikes.length),
      ((∀ inst ∈ instruments,
          ¬(inst.strike = strikes.get ⟨i, h⟩ ∧ inst.instrument_type = OptKind.CE)) →
        ((build_options_chain instruments quotes strikes spot expiry now fp).get
            ⟨i, by simpa [build_options_chain] using h⟩).ce = zeroOptFields) ∧
      ((∀ inst ∈ instruments,
          ¬(inst.strike = strikes.get ⟨i, h⟩ ∧ inst.instrument_type = OptKind.PE)) →
        ((build_options_chain instruments quotes strikes spot expiry now fp).get
            ⟨i, by simpa [build_options_chain] using h⟩).pe = zeroOptFields)) := by
  refine ⟨by simp [build_options_chain], ?_, ?_⟩
  · intro i h
    rw [build_options_chain_get]
    rfl
  · intro i h
    constructor
    · intro hno
      rw [build_options_chain_get, chainRow_ce]
      have hfind : instruments.find? (fun inst =>
          decide (inst.strike = strikes.get ⟨i, h⟩ ∧ inst.instrument_type = OptKind.CE))
          = none := by
        rw [List.find?_eq_none]
        intro a ha
        simpa using hno a ha
      rw [hfind, optFieldsFor_none]
    · intro hno
      rw [build_options_chain_get, chainRow_pe]
      have hfind : instruments.find? (fun inst =>
          decide (inst.strike = strikes.get ⟨i, h⟩ ∧ inst.instrument_type = OptKind.PE))
          = none := by
        rw [List.find?_eq_none]
        intro a ha
        simpa using hno a ha
      rw [hfind, optFieldsFor_none]

/-- Witness for C3: a single requested strike with no instruments at all gives
one row with zeroed CE fields. -/
theorem build_chain_row_per_strike_witness :
    ((build_options_chain [] [] [100] 100 ⟨2025, 10, 30⟩ ⟨2025, 10, 30⟩ none).get
        ⟨0, by simp [build_options_chain]⟩).ce = zeroOptFields :=
  ((build_chain_row_per_strike [] [] [100] 100 ⟨2025, 10, 30⟩ ⟨2025, 10, 30⟩ none).2.2
    0 (by norm_num)).1 (by simp)

/-- C1 amended (corrected): each option side of a row of build_options_chain
is computed by optFieldsFor at the floored year fraction, which is always
positive, so the code guard reduces to the last-traded-price test.  When the
LTP is not positive the IV field is the 0 marker and the Greeks use the
documented 15% fallback volatility.  When the LTP is positive the row always
goes through the solver call: at the time floor the solver edge branch returns
value 0, so the IV field is still the 0 marker but the Greeks are computed
with volatility 0 (the solver edge value), not with the 15% fallback; away
from the floor the IV field is the solver value as a rounded percentage. -/
theorem build_chain_iv_policy (instruments : List Inst) (quotes : List (String × Quote))
    (strikes : List ℚ) (spot : ℚ) (expiry now : Date) (fp : Option ℚ) :
    (∀ i (h : i < strikes.length),
      ((build_options_chain instruments quotes strikes spot expiry now fp).get
          ⟨i, by simpa [build_options_chain] using h⟩).ce
        = optFieldsFor quotes spot (strikes.get ⟨i, h⟩) (get_time_to_expiry expiry now)
            OptKind.CE (instruments.find? fun inst =>
              decide (inst.strike = strikes.get ⟨i, h⟩ ∧
                inst.instrument_type = OptKind.CE)) ∧
      ((build_options_chain instruments quotes strikes spot expiry now fp).get
          ⟨i, by simpa [build_options_chain] using h⟩).pe
        = optFieldsFor quotes spot (strikes.get ⟨i, h⟩) (get_time_to_expiry expiry now)
            OptKind.PE (instruments.find? fun inst =>
              decide (inst.strike = strikes.get ⟨i, h⟩ ∧
                inst.instrument_type = OptKind.PE))) ∧
    0 < get_time_to_expiry expiry now ∧
    (∀ (strike T : ℚ) (kind : OptKind) (inst : Inst),
      ((lookupQuote quotes ("NFO:" ++ inst.tradingsymbol)).last_price ≤ 0 →
        (optFieldsFor quotes spot strike T kind (some inst)).iv = 0 ∧
        (⟨(optFieldsFor quotes spot strike T kind (some inst)).delta,
          (optFieldsFor quotes spot strike T kind (some inst)).gamma,
          (optFieldsFor quotes spot strike T kind (some inst)).vega,
          (optFieldsFor quotes spot strike T kind (some inst)).theta⟩ : GreeksResult)
          = calculate_all_greeks (spot : ℝ) (strike : ℝ) ((T : ℚ) : ℝ) 0.15 kind none) ∧
      (0 < (lookupQuote quotes ("NFO:" ++ inst.tradingsymbol)).last_price →
        T = TIME_FLOOR_Q →
        (optFieldsFor quotes spot strike T kind (some inst)).iv = 0 ∧
        (⟨(optFieldsFor quotes spot strike T kind (some inst)).delta,
          (optFieldsFor quotes spot strike T kind (some inst)).gamma,
          (optFieldsFor quotes spot strike T kind (some inst)).vega,
          (optFieldsFor quotes spot strike T kind (some inst)).theta⟩ : GreeksResult)
          = calculate_all_greeks (spot : ℝ) (strike : ℝ) ((T : ℚ) : ℝ) 0 kind none) ∧
      (0 < (lookupQuote quotes ("NFO:" ++ inst.tradingsymbol)).last_price → 0 < T →
        (optFieldsFor quotes spot strike T kind (some inst)).iv
          = pyRound2R (calculate_implied_volatility
              (((lookupQuote quotes ("NFO:" ++ inst.tradingsymbol)).last_price : ℚ) : ℝ)
              (spot : ℝ) (strike : ℝ) ((T : ℚ) : ℝ) kind none * 100))) := by
  refine ⟨?_, get_time_to_expiry_pos expiry now, ?_⟩
  · intro i h
    rw [build_options_chain_get]
    exact ⟨chainRow_ce instruments quotes spot _ now fp _,
      chainRow_pe instruments quotes spot _ now fp _⟩
  · intro strike T kind inst
    refine ⟨fun hltp => ?_, fun hltp hT => ?_, fun hltp hT => ?_⟩
    · exact optFieldsFor_fallback quotes spot strike T kind inst
        (fun hc => absurd hltp (not_le.mpr hc.1))
    · have hTpos : 0 < T := by rw [hT]; unfold TIME_FLOOR_Q; norm_num
      have hedge : calculate_implied_volatility
          (((lookupQuote quotes ("NFO:" ++ inst.tradingsymbol)).last_price : ℚ) : ℝ)
          (spot : ℝ) (strike : ℝ) ((T : ℚ) : ℝ) kind none = 0 := by
        apply calculate_implied_volatility_edge
        right
        rw [hT]
        unfold TIME_FLOOR_Q TIME_FLOOR
        push_cast
        norm_num
      have hs := optFieldsFor_solver quotes spot strike T kind inst ⟨hltp, hTpos⟩
      refine ⟨?_, ?_⟩
      · rw [hs.1, hedge, zero_mul, pyRound2R_zero]
      · rw [hs.2, hedge]
    · exact (optFieldsFor_solver quotes spot strike T kind inst ⟨hltp, hT⟩).1

/-- Witness for the amended C1: an untraded contract (LTP 0) gets the 0 marker
and Greeks at the 15% fallback volatility. -/
theorem build_chain_iv_policy_witness :
    (optFieldsFor [] 100 100 1 OptKind.CE
        (some ⟨"X", 100, OptKind.CE, ⟨2025, 10, 30⟩⟩)).iv = 0 ∧
    (⟨(optFieldsFor [] 100 100 1 OptKind.CE
          (some ⟨"X", 100, OptKind.CE, ⟨2025, 10, 30⟩⟩)).delta,
      (optFieldsFor [] 100 100 1 OptKind.CE
          (some ⟨"X", 100, OptKind.CE, ⟨2025, 10, 30⟩⟩)).gamma,
      (optFieldsFor [] 100 100 1 OptKind.CE
          (some ⟨"X", 100, OptKind.CE, ⟨2025, 10, 30⟩⟩)).vega,
      (optFieldsFor [] 100 100 1 OptKind.CE
          (some ⟨"X", 100, OptKind.CE, ⟨2025, 10, 30⟩⟩)).theta⟩ : GreeksResult)
      = calculate_all_greeks ((100 : ℚ) : ℝ) ((100 : ℚ) : ℝ) ((1 : ℚ) : ℝ) 0.15
          OptKind.CE none :=
  ((build_chain_iv_policy [] [] [] 100 ⟨2025, 10, 30⟩ ⟨2025, 10, 30⟩ none).2.2
    100 1 OptKind.CE ⟨"X", 100, OptKind.CE, ⟨2025, 10, 30⟩⟩).1 (le_refl 0)

/-- C1 counterexample: a traded CE contract (LTP 5) evaluated on its own
expiry day.  The year fraction is the positive floor, the code guard passes
and the solver edge branch returns value 0, so the Greeks of the row are
computed with volatility 0 and differ from the Greeks at the documented 15%
fallback volatility. -/
theorem build_chain_iv_policy_cex :
    ((build_options_chain [⟨"X", 100, OptKind.CE, ⟨2025, 10, 30⟩⟩]
          [("NFO:X", ⟨0, 0, 0, 0, 5, 0, ⟨[], []⟩⟩)] [100] 100 ⟨2025, 10, 30⟩
          ⟨2025, 10, 30⟩ none).get ⟨0, by simp [build_options_chain]⟩).ce.delta
      ≠ (calculate_all_greeks ((100 : ℚ) : ℝ) ((100 : ℚ) : ℝ)
          ((TIME_FLOOR_Q : ℚ) : ℝ) 0.15 OptKind.CE none).delta := by
  have hrow : ((build_options_chain [⟨"X", 100, OptKind.CE, ⟨2025, 10, 30⟩⟩]
        [("NFO:X", ⟨0, 0, 0, 0, 5, 0, ⟨[], []⟩⟩)] [100] 100 ⟨2025, 10, 30⟩
        ⟨2025, 10, 30⟩ none).get ⟨0, by simp [build_options_chain]⟩).ce
      = optFieldsFor [("NFO:X", ⟨0, 0, 0, 0, 5, 0, ⟨[], []⟩⟩)] 100 100
          (get_time_to_expiry ⟨2025, 10, 30⟩ ⟨2025, 10, 30⟩) OptKind.CE
          (some ⟨"X", 100, OptKind.CE, ⟨2025, 10, 30⟩⟩) := rfl
  rw [hrow, get_time_to_expiry_self]
  have hq : 0 < (lookupQuote [("NFO:X", ⟨0, 0, 0, 0, 5, 0, ⟨[], []⟩⟩)]
      ("NFO:" ++ "X")).last_price ∧ 0 < TIME_FLOOR_Q := by
    constructor
    · show (0 : ℚ) < 5
      norm_num
    · unfold TIME_FLOOR_Q
      norm_num
  have hs := optFieldsFor_solver [("NFO:X", ⟨0, 0, 0, 0, 5, 0, ⟨[], []⟩⟩)] 100 100
    TIME_FLOOR_Q OptKind.CE ⟨"X", 100, OptKind.CE, ⟨2025, 10, 30⟩⟩ hq
  have hedge : calculate_implied_volatility
      (((lookupQuote [("NFO:X", ⟨0, 0, 0, 0, 5, 0, ⟨[], []⟩⟩)]
          ("NFO:" ++ "X")).last_price : ℚ) : ℝ)
      ((100 : ℚ) : ℝ) ((100 : ℚ) : ℝ) ((TIME_FLOOR_Q : ℚ) : ℝ) OptKind.CE none = 0 := by
    apply calculate_implied_volatility_edge
    right
    unfold TIME_FLOOR_Q TIME_FLOOR
    push_cast
    norm_num
  have hdelta := congrArg GreeksResult.delta hs.2
  simp only at hdelta
  rw [hdelta, hedge]
  have hTpos : (0 : ℝ) < ((TIME_FLOOR_Q : ℚ) : ℝ) := by
    unfold TIME_FLOOR_Q
    push_cast
    norm_num
  have hd0 : bsD1 ((100 : ℚ) : ℝ) ((100 : ℚ) : ℝ) ((TIME_FLOOR_Q : ℚ) : ℝ) 0
      RISK_FREE_RATE = 0 := by
    unfold bsD1
    rw [zero_mul, div_zero]
  have hdpos : 0 < bsD1 ((100 : ℚ) : ℝ) ((100 : ℚ) : ℝ) ((TIME_FLOOR_Q : ℚ) : ℝ) 0.15
      RISK_FREE_RATE := by
    unfold bsD1 RISK_FREE_RATE
    rw [div_self (by norm_num : ((100 : ℚ) : ℝ) ≠ 0), Real.log_one]
    apply div_pos
    · nlinarith
    · have := Real.sqrt_pos.mpr hTpos
      nlinarith
  have hne : normalCdf (bsD1 ((100 : ℚ) : ℝ) ((100 : ℚ) : ℝ) ((TIME_FLOOR_Q : ℚ) : ℝ) 0
        RISK_FREE_RATE)
      ≠ normalCdf (bsD1 ((100 : ℚ) : ℝ) ((100 : ℚ) : ℝ) ((TIME_FLOOR_Q : ℚ) : ℝ) 0.15
        RISK_FREE_RATE) := by
    rw [hd0]
    exact ne_of_lt (normalCdf_strictMono hdpos)
  simpa [calculate_all_greeks, bsGreeks] using hne

/-- C4 amended (corrected): the validation workflow passes the risk-free rate
explicitly, calculate_greeks_with_rate computing the engine Greeks at exactly
the passed rate; build_options_chain does not: its calls to
calculate_implied_volatility and calculate_all_greeks omit the risk_free_rate
argument, so the Greeks of its rows are computed at the module default rate —
in particular every fallback-branch option side carries Greeks at the default
rate regardless of any configured rate. -/
theorem risk_free_rate_threading :
    (∀ (S K T iv r : ℝ) (kind : OptKind),
      calculate_greeks_with_rate S K T iv kind r = bsGreeks S K T iv r kind) ∧
    (∀ (quotes : List (String × Quote)) (spot strike T : ℚ) (kind : OptKind)
       (inst : Inst),
      ¬(0 < (lookupQuote quotes ("NFO:" ++ inst.tradingsymbol)).last_price ∧ 0 < T) →
      (⟨(optFieldsFor quotes spot strike T kind (some inst)).delta,
        (optFieldsFor quotes spot strike T kind (some inst)).gamma,
        (optFieldsFor quotes spot strike T kind (some inst)).vega,
        (optFieldsFor quotes spot strike T kind (some inst)).theta⟩ : GreeksResult)
        = bsGreeks (spot : ℝ) (strike : ℝ) ((T : ℚ) : ℝ) 0.15 RISK_FREE_RATE kind) := by
  constructor
  · intro S K T iv r kind
    rfl
  · intro quotes spot strike T kind inst h
    rw [(optFieldsFor_fallback quotes spot strike T kind inst h).2]
    rfl

/-- Witness for the amended C4. -/
theorem risk_free_rate_threading_witness :
    calculate_greeks_with_rate 100 100 1 0.2 OptKind.CE 0.1
        = bsGreeks 100 100 1 0.2 0.1 OptKind.CE ∧
    (⟨(optFieldsFor [] 100 100 1 OptKind.CE
          (some ⟨"X", 100, OptKind.CE, ⟨2025, 10, 30⟩⟩)).delta,
      (optFieldsFor [] 100 100 1 OptKind.CE
          (some ⟨"X", 100, OptKind.CE, ⟨2025, 10, 30⟩⟩)).gamma,
      (optFieldsFor [] 100 100 1 OptKind.CE
          (some ⟨"X", 100, OptKind.CE, ⟨2025, 10, 30⟩⟩)).vega,
      (optFieldsFor [] 100 100 1 OptKind.CE
          (some ⟨"X", 100, OptKind.CE, ⟨2025, 10, 30⟩⟩)).theta⟩ : GreeksResult)
      = bsGreeks ((100 : ℚ) : ℝ) ((100 : ℚ) : ℝ) ((1 : ℚ) : ℝ) 0.15 RISK_FREE_RATE
          OptKind.CE :=
  ⟨risk_free_rate_threading.1 100 100 1 0.2 0.1 OptKind.CE,
   risk_free_rate_threading.2 [] 100 100 1 OptKind.CE
     ⟨"X", 100, OptKind.CE, ⟨2025, 10, 30⟩⟩
     (by
       show ¬((0 : ℚ) < 0 ∧ (0 : ℚ) < 1)
       norm_num)⟩

/-- C4 counterexample: with configured rate 10%, the Greeks of a
build_options_chain row differ from the Greeks at an explicitly passed 10%
rate, because the chain builder omits the rate argument and the callee falls
back to the module default. -/
theorem risk_free_rate_threading_cex :
    ((build_options_chain [⟨"X", 100, OptKind.CE, ⟨2025, 11, 27⟩⟩] [] [100] 100
          ⟨2025, 11, 27⟩ ⟨2025, 11, 20⟩ none).get
        ⟨0, by simp [build_options_chain]⟩).ce.delta
      ≠ (calculate_greeks_with_rate ((100 : ℚ) : ℝ) ((100 : ℚ) : ℝ)
          ((get_time_to_expiry ⟨2025, 11, 27⟩ ⟨2025, 11, 20⟩ : ℚ) : ℝ) 0.15 OptKind.CE
          0.1).delta := by
  have hrow : ((build_options_chain [⟨"X", 100, OptKind.CE, ⟨2025, 11, 27⟩⟩] [] [100]
        100 ⟨2025, 11, 27⟩ ⟨2025, 11, 20⟩ none).get
        ⟨0, by simp [build_options_chain]⟩).ce
      = optFieldsFor [] 100 100 (get_time_to_expiry ⟨2025, 11, 27⟩ ⟨2025, 11, 20⟩)
          OptKind.CE (some ⟨"X", 100, OptKind.CE, ⟨2025, 11, 27⟩⟩) := rfl
  rw [hrow]
  have hfb := (optFieldsFor_fallback [] 100 100
    (get_time_to_expiry ⟨2025, 11, 27⟩ ⟨2025, 11, 20⟩) OptKind.CE
    ⟨"X", 100, OptKind.CE, ⟨2025, 11, 27⟩⟩
    (by
      show ¬((0 : ℚ) < 0 ∧ 0 < get_time_to_expiry ⟨2025, 11, 27⟩ ⟨2025, 11, 20⟩)
      norm_num)).2
  have hdelta := congrArg GreeksResult.delta hfb
  simp only at hdelta
  rw [hdelta]
  have hTpos : (0 : ℝ) < ((get_time_to_expiry ⟨2025, 11, 27⟩ ⟨2025, 11, 20⟩ : ℚ) : ℝ) :=
    by exact_mod_cast get_time_to_expiry_pos ⟨2025, 11, 27⟩ ⟨2025, 11, 20⟩
  have hlt : bsD1 ((100 : ℚ) : ℝ) ((100 : ℚ) : ℝ)
        ((get_time_to_expiry ⟨2025, 11, 27⟩ ⟨2025, 11, 20⟩ : ℚ) : ℝ) 0.15
        RISK_FREE_RATE
      < bsD1 ((100 : ℚ) : ℝ) ((100 : ℚ) : ℝ)
        ((get_time_to_expiry ⟨2025, 11, 27⟩ ⟨2025, 11, 20⟩ : ℚ) : ℝ) 0.15 0.1 := by
    unfold bsD1 RISK_FREE_RATE
    rw [div_self (by norm_num : ((100 : ℚ) : ℝ) ≠ 0), Real.log_one]
    apply div_lt_div_of_pos_right
    · nlinarith
    · have := Real.sqrt_pos.mpr hTpos
      nlinarith
  have hne := ne_of_lt (normalCdf_strictMono hlt)
  simpa [calculate_all_greeks, calculate_greeks_with_rate, bsGreeks] using hne

end NiftyChain
